import Mathlib

/-!
Shallow embedding of the streaming INI parser in `src/ini_parser.cpp`
(`config::ini::parser`).  The character stream is modelled as a `List Char`:
`in_.get()` on a nonempty stream consumes the head, on an empty stream it
fails and sets the eof bit (modelled by matching on `[]`).  `pos_` is
incremented by every `get_char` call (even a failing one) and decremented by
every `put_back`, exactly as in the source.  Character classification uses
locale-independent ASCII semantics for `isspace`/`isalnum`, matching the
source's use of `<cctype>` on ASCII input.
-/

/-- Event kinds, mirroring `parser::event_type`. -/
inductive EventType where
  | EVENT_SECTION
  | EVENT_NAME
  | EVENT_VALUE
  | EVENT_ERROR
  | EVENT_END
deriving DecidableEq

/-- Parser event, mirroring `parser::event` (`type` and string `value`). -/
structure Event where
  type : EventType
  value : List Char
deriving DecidableEq

/-- The states ever stored in the member `state_`: the constructor stores
`advance_gen`, `advance_param` stores `advance_value` or `advance_eof`,
`advance_section` stores `advance_gen`, `advance_value` stores `advance_gen`
or `advance_eof`, `advance_eof` stores `advance_eof`.  (`advance_section` and
`advance_param` are invoked directly from `advance_gen`, never stored.) -/
inductive PState where
  | general
  | value
  | eof
deriving DecidableEq

/-- The parser object: remaining input stream, `filename_`, stored `state_`,
`line_` and `pos_`. -/
structure Parser where
  input : List Char
  filename : List Char
  state : PState
  line : Nat
  pos : Nat
deriving DecidableEq

/-- ASCII `std::isspace`: space, \t, \n, \v, \f, \r. -/
def isspace (c : Char) : Bool :=
  c.toNat == 32 || c.toNat == 9 || c.toNat == 10 ||
  c.toNat == 11 || c.toNat == 12 || c.toNat == 13

/-- ASCII `std::isalnum`: digits and latin letters. -/
def isalnum (c : Char) : Bool :=
  (decide (48 ≤ c.toNat) && decide (c.toNat ≤ 57)) ||
  (decide (65 ≤ c.toNat) && decide (c.toNat ≤ 90)) ||
  (decide (97 ≤ c.toNat) && decide (c.toNat ≤ 122))

/-- `trim_right` from the anonymous namespace: erase the maximal run of
trailing whitespace (the source finds the least `i` with `s[i..]` all
whitespace and erases from there, which removes exactly the trailing
whitespace run). -/
def trim_right (s : List Char) : List Char :=
  (s.reverse.dropWhile isspace).reverse

/-- Decimal rendering of a counter, as `operator<<(std::ostream, size_t)`. -/
def show_nat (n : Nat) : List Char :=
  (Nat.repr n).data

/-- The formatted diagnostic `<filename>:<line>:<pos>: Unexpected token: <desc>`
streamed by `parser::unexpected_token`. -/
def err_msg (f : List Char) (line pos : Nat) (desc : List Char) : List Char :=
  f ++ (":").data ++ show_nat line ++ (":").data ++ show_nat pos ++
    (": Unexpected token: ").data ++ desc

/-- Writing `msg` into an `std::ostringstream` constructed from `old` without
`ios::ate`: the put position starts at 0, so `msg` overwrites `old` in place
and any tail of `old` beyond `msg` survives in `str()`. -/
def ostream_overwrite (msg old : List Char) : List Char :=
  msg ++ old.drop msg.length

/-- `parser::unexpected_token`: builds the diagnostic over the previous
contents of `e.value` and stamps the event `EVENT_ERROR`. -/
def unexpected_token (f : List Char) (line pos : Nat) (desc old : List Char) : Event :=
  ⟨EventType.EVENT_ERROR, ostream_overwrite (err_msg f line pos desc) old⟩

/-- The description built for a disallowed character in `advance_gen`:
`char buf[] = {'s','y','m','b','o','l',' ','\x27',c,'\x27','\0'}` streamed
as a NUL-terminated C string.  Streaming stops at the first NUL, so for the
offending byte `'\0'` only `"symbol '"` is written — no character and no
closing quote; for every other byte the full `symbol '<c>'` appears. -/
def symbol_desc (c : Char) : List Char :=
  if c == Char.ofNat 0 then ("symbol ").data ++ [Char.ofNat 39]
  else ("symbol ").data ++ [Char.ofNat 39, c, Char.ofNat 39]

/-- Result of `check_lf`: stream and `pos_` afterwards, and whether the
lookahead read hit end of input (leaving the stream failed). -/
structure LfR where
  input : List Char
  pos : Nat
  hitEof : Bool
deriving DecidableEq

/-- `parser::check_lf`: read one character; if it is not `\n`, put it back.
At end of input the read fails (and the put-back is a no-op on the failed
stream); `pos_` is incremented by the read and decremented by the put-back. -/
def check_lf : List Char → Nat → LfR
  | [], pos => ⟨[], pos, true⟩
  | c :: cs, pos =>
    if c == '\n' then ⟨cs, pos + 1, false⟩ else ⟨c :: cs, pos, false⟩

/-- Result of `skip_ws`: stream and `pos_` afterwards, and the returned
`in_.good()` flag. -/
structure WsR where
  input : List Char
  pos : Nat
  ok : Bool
deriving DecidableEq

/-- `parser::skip_ws`: `while (in_ && std::isspace(c = get_char()));` then
put back the non-space character when the stream is still good.  Note that
`isspace` accepts `\n` and `\r`, so line terminators are consumed here
without touching `line_`. -/
def skip_ws : List Char → Nat → WsR
  | [], pos => ⟨[], pos + 1, false⟩
  | c :: cs, pos =>
    if isspace c then skip_ws cs (pos + 1) else ⟨c :: cs, pos, true⟩

/-- Result of `skip_comment`: stream, `line_`, `pos_` afterwards and the
returned `in_.good()` flag (false exactly when end of input was reached). -/
structure ScanR where
  input : List Char
  line : Nat
  pos : Nat
  ok : Bool
deriving DecidableEq

/-- `parser::skip_comment`: consume characters up to and including the next
end of line (`\r` collapsing a following `\n` via `check_lf`), returning
`in_.good()`; at end of input return false (with the event untouched by the
caller `advance_gen`). -/
def skip_comment : List Char → Nat → Nat → ScanR
  | [], line, pos => ⟨[], line, pos + 1, false⟩
  | c :: cs, line, pos =>
    if c == '\r' then
      let r := check_lf cs (pos + 1)
      ⟨r.input, line + 1, 0, !r.hitEof⟩
    else if c == '\n' then ⟨cs, line + 1, 0, true⟩
    else skip_comment cs line (pos + 1)

/-- Result of one state function: stream, `line_`, `pos_`, stored `state_`,
the event record after the call, and the returned Bool. -/
structure AdvR where
  input : List Char
  line : Nat
  pos : Nat
  state : PState
  e : Event
  ret : Bool
deriving DecidableEq

/-- Loop body of `parser::advance_section` after `e.value.clear()` and
`skip_ws()`; `acc` is the accumulated `e.value`.  On `]` with an empty
accumulator the source calls `unexpected_token` but still falls through to
`state_ = advance_gen; trim_right; return true`. -/
def section_loop (f : List Char) : List Char → Nat → Nat → List Char → AdvR
  | [], line, pos, _acc =>
    ⟨[], line, pos + 1, PState.eof,
      unexpected_token f line (pos + 1) ("end of file").data [], false⟩
  | c :: cs, line, pos, acc =>
    if c == ';' then
      ⟨cs, line, pos + 1, PState.general,
        unexpected_token f line (pos + 1) ("comment").data acc, false⟩
    else if c == '\r' || c == '\n' then
      ⟨cs, line, pos + 1, PState.general,
        unexpected_token f line (pos + 1) ("end of line").data acc, false⟩
    else if c == ']' then
      (if acc.isEmpty then
        ⟨cs, line, pos + 1, PState.general,
          ⟨EventType.EVENT_ERROR,
            trim_right (unexpected_token f line (pos + 1) ("]").data acc).value⟩, true⟩
      else
        ⟨cs, line, pos + 1, PState.general,
          ⟨EventType.EVENT_SECTION, trim_right acc⟩, true⟩)
    else section_loop f cs line (pos + 1) (acc ++ [c])

/-- Loop body of `parser::advance_param` after `e.value.clear()`.  At end of
input the state becomes `advance_eof` and the error text says
"end of line" (sic); on `\r` the source calls `check_lf` and falls through
to the `\n` error without incrementing `line_`. -/
def param_loop (f : List Char) : List Char → Nat → Nat → List Char → AdvR
  | [], line, pos, acc =>
    ⟨[], line, pos + 1, PState.eof,
      unexpected_token f line (pos + 1) ("end of line").data acc, false⟩
  | c :: cs, line, pos, acc =>
    if c == ';' then
      ⟨cs, line, pos + 1, PState.general,
        unexpected_token f line (pos + 1) ("comment").data acc, false⟩
    else if c == '\r' then
      let r := check_lf cs (pos + 1)
      ⟨r.input, line, r.pos, PState.general,
        unexpected_token f line r.pos ("new line").data acc, false⟩
    else if c == '\n' then
      ⟨cs, line, pos + 1, PState.general,
        unexpected_token f line (pos + 1) ("new line").data acc, false⟩
    else if c == '=' then
      ⟨cs, line, pos + 1, PState.value, ⟨EventType.EVENT_NAME, trim_right acc⟩, true⟩
    else param_loop f cs line (pos + 1) (acc ++ [c])

/-- Loop body of `parser::advance_value` after `e.value.clear()` and
`skip_ws()`.  Every exit path stamps `EVENT_VALUE`, trims on the right and
returns true. -/
def value_loop : List Char → Nat → Nat → List Char → AdvR
  | [], line, pos, acc =>
    ⟨[], line, pos + 1, PState.eof, ⟨EventType.EVENT_VALUE, trim_right acc⟩, true⟩
  | c :: cs, line, pos, acc =>
    if c == '\r' then
      let r := check_lf cs (pos + 1)
      ⟨r.input, line + 1, 0, PState.general,
        ⟨EventType.EVENT_VALUE, trim_right acc⟩, true⟩
    else if c == '\n' then
      ⟨cs, line + 1, 0, PState.general, ⟨EventType.EVENT_VALUE, trim_right acc⟩, true⟩
    else if c == ';' then
      let r := skip_comment cs line (pos + 1)
      ⟨r.input, r.line, r.pos, if r.ok then PState.general else PState.eof,
        ⟨EventType.EVENT_VALUE, trim_right acc⟩, true⟩
    else value_loop cs line (pos + 1) (acc ++ [c])

/-- `parser::advance_section`, called from `advance_gen` right after the `[`
was consumed: clear the accumulator, skip leading whitespace, run the loop. -/
def advance_section_core (f : List Char) (input : List Char) (line pos : Nat) : AdvR :=
  let w := skip_ws input pos
  section_loop f w.input line w.pos []

/-- `parser::advance_param`, called from `advance_gen` after the first
alphanumeric character was put back. -/
def advance_param_core (f : List Char) (input : List Char) (line pos : Nat) : AdvR :=
  param_loop f input line pos []

/-- `parser::advance_value`, dispatched via the stored `state_`. -/
def advance_value_core (input : List Char) (line pos : Nat) : AdvR :=
  let w := skip_ws input pos
  value_loop w.input line w.pos []

/-- `parser::advance_gen`: the loop of the General state.  On a failed
comment skip (comment running into end of input) it returns false with the
event record left exactly as the caller passed it; on an unexpected symbol it
builds the diagnostic over the caller's previous `e.value` and leaves
`state_` unchanged. -/
def gen_loop (f : List Char) (e : Event) : List Char → Nat → Nat → AdvR
  | [], line, pos => ⟨[], line, pos + 1, PState.eof, ⟨EventType.EVENT_END, []⟩, false⟩
  | c :: cs, line, pos =>
    if c == '\r' then
      gen_loop f e (check_lf cs (pos + 1)).input (line + 1) 0
    else if c == '\n' then
      gen_loop f e cs (line + 1) 0
    else if c == ';' then
      let r := skip_comment cs line (pos + 1)
      if r.ok then gen_loop f e r.input r.line r.pos
      else ⟨r.input, r.line, r.pos, PState.general, e, false⟩
    else if c == '[' then
      advance_section_core f cs line (pos + 1)
    else if isspace c then
      gen_loop f e cs line (pos + 1)
    else if isalnum c then
      advance_param_core f (c :: cs) line pos
    else
      ⟨cs, line, pos + 1, PState.general,
        unexpected_token f line (pos + 1) (symbol_desc c) e.value, false⟩
termination_by input _ _ => input.length
decreasing_by
  · have hcl : ∀ (l : List Char) (p : Nat), (check_lf l p).input.length ≤ l.length := by
      intro l p
      cases l with
      | nil => simp [check_lf]
      | cons c cs =>
        simp only [check_lf]
        split <;> simp
    exact Nat.lt_succ_of_le (hcl cs (pos + 1))
  · exact Nat.lt_succ_self _
  · have hcl : ∀ (l : List Char) (p : Nat), (check_lf l p).input.length ≤ l.length := by
      intro l p
      cases l with
      | nil => simp [check_lf]
      | cons c cs =>
        simp only [check_lf]
        split <;> simp
    have hsc : ∀ (l : List Char) (li p : Nat),
        (skip_comment l li p).input.length ≤ l.length := by
      intro l
      induction l with
      | nil => intro _ _; simp [skip_comment]
      | cons c cs ih =>
        intro li p
        simp only [skip_comment]
        split
        · exact le_trans (hcl cs (p + 1)) (by simp)
        · split
          · simp
          · exact le_trans (ih li (p + 1)) (by simp)
    exact Nat.lt_succ_of_le (hsc cs line (pos + 1))
  · exact Nat.lt_succ_self _

/-- `parser::advance`: dispatch through the stored `state_`.  In the Eof
state (`advance_eof`) the event is `(End, "")` and the return value false. -/
def advance (p : Parser) (e : Event) : Parser × Event × Bool :=
  match p.state with
  | PState.general =>
    let r := gen_loop p.filename e p.input p.line p.pos
    (⟨r.input, p.filename, r.state, r.line, r.pos⟩, r.e, r.ret)
  | PState.value =>
    let r := advance_value_core p.input p.line p.pos
    (⟨r.input, p.filename, r.state, r.line, r.pos⟩, r.e, r.ret)
  | PState.eof =>
    (⟨p.input, p.filename, PState.eof, p.line, p.pos⟩, ⟨EventType.EVENT_END, []⟩, false)

/-- `parser::parser(std::istream&)`: filename `"(Unknown)"`, state
`advance_gen`, `line_(0)`, `pos_(0)`. -/
def construct (input : List Char) : Parser :=
  ⟨input, ("(Unknown)").data, PState.general, 0, 0⟩

/-- `parser::parser(const std::string&, std::istream&)`. -/
def construct_named (f input : List Char) : Parser :=
  ⟨input, f, PState.general, 0, 0⟩

/-- Repeated `advance` calls reusing the same event record (as the unit test
does), collecting the event written and the Bool returned by each call. -/
def advance_run : Parser → Event → Nat → List (Event × Bool)
  | _, _, 0 => []
  | p, e, n + 1 =>
    let r := advance p e
    (r.2.1, r.2.2) :: advance_run r.1 r.2.1 n

/-- Characters that continue a value in `advance_value`: everything except
`\r`, `\n` and `;`. -/
def value_char (c : Char) : Bool :=
  !(c == '\r' || c == '\n' || c == ';')

/-- A token has no whitespace at either edge: its first and last characters
(when they exist) are not `isspace`. -/
def no_edge_ws (l : List Char) : Bool :=
  (l.head?.elim true fun c => !isspace c) &&
  (l.getLast?.elim true fun c => !isspace c)

/-- The whitespace discipline on the event record: a `Section`, `Name` or
`Value` payload has no leading and no trailing whitespace. -/
def event_edge_ok (e : Event) : Prop :=
  (e.type = EventType.EVENT_SECTION ∨ e.type = EventType.EVENT_NAME ∨
      e.type = EventType.EVENT_VALUE) →
    no_edge_ws e.value = true

/-- The token descriptions the source ever passes to `unexpected_token`. -/
def err_desc_ok (d : List Char) : Prop :=
  d = ("end of file").data ∨ d = ("end of line").data ∨ d = ("comment").data ∨
  d = ("new line").data ∨ d = ("]").data ∨ ∃ c, d = symbol_desc c

/-- An error payload that starts with the formatted diagnostic for one of the
fixed descriptions (possibly followed by a leftover tail of the overwritten
buffer). -/
def err_prefixed (f v : List Char) : Prop :=
  ∃ line pos d rest, err_desc_ok d ∧ v = err_msg f line pos d ++ rest

/-- Characters admitted by the round-trip claim: no comment marker, no
whitespace, no bracket, no equals sign, no EOL (EOL characters are
whitespace). -/
def plain_char (c : Char) : Bool :=
  !(c == ';' || c == '[' || c == ']' || c == '=' || isspace c)

/-- A serialisable section name or value: nonempty, all characters plain. -/
def good_text (s : List Char) : Bool :=
  !s.isEmpty && s.all plain_char

/-- A serialisable key: nonempty, all characters plain, and starting with an
alphanumeric character (the General state only enters the Name state at an
alphanumeric character). -/
def good_name : List Char → Bool
  | [] => false
  | c :: cs => isalnum c && plain_char c && (c :: cs).all plain_char

/-- All pairs of a stream are serialisable. -/
def good_pairs (ps : List (List Char × List Char)) : Bool :=
  ps.all fun kv => good_name kv.1 && good_text kv.2

/-- Serialisation of the assignment pairs as `k=v\n` lines. -/
def serialize_pairs : List (List Char × List Char) → List Char
  | [] => []
  | (k, v) :: rest => k ++ '=' :: (v ++ '\n' :: serialize_pairs rest)

/-- Serialisation of the event stream `Section(s), (Name(k), Value(v))*` as
`[s]\nk=v\n...`. -/
def serialize (s : List Char) (ps : List (List Char × List Char)) : List Char :=
  '[' :: (s ++ ']' :: '\n' :: serialize_pairs ps)

/-- The `(event, returned Bool)` list expected when re-parsing the
serialisation, after the leading `Section` event. -/
def expected_tail : List (List Char × List Char) → List (Event × Bool)
  | [] => [(⟨EventType.EVENT_END, []⟩, false)]
  | (k, v) :: rest =>
    (⟨EventType.EVENT_NAME, k⟩, true) :: (⟨EventType.EVENT_VALUE, v⟩, true) ::
      expected_tail rest

/-!
Helper lemmas shared between the claim theorems.
-/

theorem dropWhile_head_not (p : Char → Bool) (l : List Char) (c : Char)
    (h : (l.dropWhile p).head? = some c) : p c = false := by
  induction l with
  | nil => simp [List.dropWhile] at h
  | cons x xs ih =>
    rw [List.dropWhile_cons] at h
    by_cases hx : p x = true
    · rw [if_pos hx] at h
      exact ih h
    · rw [if_neg hx] at h
      simp only [List.head?_cons, Option.some.injEq] at h
      subst h
      exact Bool.eq_false_iff.mpr hx

theorem trim_right_getLast_not (l : List Char) (c : Char)
    (h : (trim_right l).getLast? = some c) : isspace c = false := by
  unfold trim_right at h
  rw [List.getLast?_reverse] at h
  exact dropWhile_head_not _ _ _ h

theorem trim_right_append_eq (l : List Char) :
    trim_right l ++ (l.reverse.takeWhile isspace).reverse = l := by
  unfold trim_right
  rw [← List.reverse_append, List.takeWhile_append_dropWhile, List.reverse_reverse]

theorem trim_right_head_eq (l : List Char) (c : Char)
    (h : (trim_right l).head? = some c) : l.head? = some c := by
  rw [← trim_right_append_eq l, List.head?_append, h]
  rfl

theorem no_edge_ws_intro (l : List Char)
    (h1 : ∀ c, l.head? = some c → isspace c = false)
    (h2 : ∀ c, l.getLast? = some c → isspace c = false) :
    no_edge_ws l = true := by
  unfold no_edge_ws
  rw [Bool.and_eq_true]
  constructor
  · cases hh : l.head? with
    | none => rfl
    | some c => simp [Option.elim, h1 c hh]
  · cases hh : l.getLast? with
    | none => rfl
    | some c => simp [Option.elim, h2 c hh]

theorem trim_right_edge (l : List Char)
    (h1 : ∀ c, l.head? = some c → isspace c = false) :
    no_edge_ws (trim_right l) = true := by
  apply no_edge_ws_intro
  · intro c hc
    exact h1 c (trim_right_head_eq l c hc)
  · intro c hc
    exact trim_right_getLast_not l c hc

theorem not_space_beq_cr (c : Char) (h : isspace c = false) : (c == '\r') = false := by
  rw [beq_eq_false_iff_ne]
  intro he
  subst he
  exact absurd h (by decide)

theorem not_space_beq_lf (c : Char) (h : isspace c = false) : (c == '\n') = false := by
  rw [beq_eq_false_iff_ne]
  intro he
  subst he
  exact absurd h (by decide)

theorem isalnum_not_space (c : Char) (h : isalnum c = true) : isspace c = false := by
  have hn : (48 ≤ c.toNat ∧ c.toNat ≤ 57 ∨ 65 ≤ c.toNat ∧ c.toNat ≤ 90) ∨
      97 ≤ c.toNat ∧ c.toNat ≤ 122 := by
    simpa [isalnum] using h
  simp only [isspace, Bool.or_eq_false_iff, beq_eq_false_iff_ne]
  omega

theorem isalnum_beq_ne (c : Char) (h : isalnum c = true) :
    (c == ';') = false ∧ (c == '\r') = false ∧ (c == '\n') = false ∧
    (c == '[') = false ∧ (c == '=') = false := by
  have hn : (48 ≤ c.toNat ∧ c.toNat ≤ 57 ∨ 65 ≤ c.toNat ∧ c.toNat ≤ 90) ∨
      97 ≤ c.toNat ∧ c.toNat ≤ 122 := by
    simpa [isalnum] using h
  refine ⟨?_, ?_, ?_, ?_, ?_⟩ <;> rw [beq_eq_false_iff_ne] <;>
    intro he <;> rw [he] at hn <;> revert hn <;> decide

theorem plain_char_facts (c : Char) (h : plain_char c = true) :
    (c == ';') = false ∧ (c == '[') = false ∧ (c == ']') = false ∧
    (c == '=') = false ∧ isspace c = false ∧ (c == '\r') = false ∧
    (c == '\n') = false := by
  have hh : (((¬c = ';' ∧ ¬c = '[') ∧ ¬c = ']') ∧ ¬c = '=') ∧ isspace c = false := by
    simpa [plain_char] using h
  obtain ⟨⟨⟨⟨h1, h2⟩, h3⟩, h4⟩, h5⟩ := hh
  exact ⟨beq_eq_false_iff_ne.mpr h1, beq_eq_false_iff_ne.mpr h2,
    beq_eq_false_iff_ne.mpr h3, beq_eq_false_iff_ne.mpr h4, h5,
    not_space_beq_cr c h5, not_space_beq_lf c h5⟩

theorem skip_ws_cons_pos (c : Char) (cs : List Char) (pos : Nat)
    (hc : isspace c = true) : skip_ws (c :: cs) pos = skip_ws cs (pos + 1) := by
  simp [skip_ws, hc]

theorem skip_ws_cons_neg (c : Char) (cs : List Char) (pos : Nat)
    (hc : isspace c = false) : skip_ws (c :: cs) pos = ⟨c :: cs, pos, true⟩ := by
  simp [skip_ws, hc]

theorem skip_ws_input (l : List Char) (pos : Nat) :
    (skip_ws l pos).input = l.dropWhile isspace := by
  induction l generalizing pos with
  | nil => simp [skip_ws, List.dropWhile]
  | cons c cs ih =>
    by_cases hc : isspace c = true
    · rw [skip_ws_cons_pos c cs pos hc, List.dropWhile_cons, if_pos hc]
      exact ih (pos + 1)
    · rw [skip_ws_cons_neg c cs pos (Bool.eq_false_iff.mpr hc),
        List.dropWhile_cons, if_neg hc]

theorem advance_from_eof (p : Parser) (e : Event) (h : p.state = PState.eof) :
    advance p e = (p, ⟨EventType.EVENT_END, []⟩, false) := by
  obtain ⟨i, f, s, l, q⟩ := p
  cases s with
  | general => simp at h
  | value => simp at h
  | eof => rfl

theorem advance_run_from_eof (p : Parser) (e : Event) (n : Nat)
    (h : p.state = PState.eof) :
    advance_run p e n = List.replicate n (⟨EventType.EVENT_END, []⟩, false) := by
  induction n generalizing p e with
  | zero => rfl
  | succ n ih =>
    rw [List.replicate_succ]
    simp only [advance_run]
    rw [advance_from_eof p e h]
    exact congrArg _ (ih p _ h)

/-!
Claim theorems.
-/

/-- C1: claimed — `advance(e)` returns true iff the written event is
`Section`, `Name` or `Value`, and false iff it is `Error` or `End`, in
particular on the input `"[]"`.  The code violates this (and the contract
documented on `parser::advance` in `parser.hpp`): on `"[]"` the empty
section name calls `unexpected_token`, writes an `Error` event, yet falls
through to `return true`.  This theorem evaluates the model at the failing
input. -/
theorem C1_empty_section_error_returns_true :
    (advance (construct (("[]").data)) ⟨EventType.EVENT_END, []⟩).2.1.type
        = EventType.EVENT_ERROR ∧
    (advance (construct (("[]").data)) ⟨EventType.EVENT_END, []⟩).2.2 = true := by
  constructor <;>
    simp [advance, construct, gen_loop, advance_section_core, skip_ws, section_loop,
      unexpected_token, err_msg, ostream_overwrite, trim_right, isspace, show_nat]

/-- C8: confirmed — once `state_` is `advance_eof`, every later call writes
`(End, "")`, returns false and leaves the parser unchanged: the Eof state is
absorbing and terminal. -/
theorem C8_eof_absorbing (p : Parser) (e : Event) (n : Nat)
    (h : p.state = PState.eof) :
    advance p e = (p, ⟨EventType.EVENT_END, []⟩, false) ∧
    advance_run p e n = List.replicate n (⟨EventType.EVENT_END, []⟩, false) :=
  ⟨advance_from_eof p e h, advance_run_from_eof p e n h⟩

theorem C8_eof_absorbing_witness :
    (⟨[], ("(Unknown)").data, PState.eof, 0, 0⟩ : Parser).state = PState.eof ∧
    advance_run ⟨[], ("(Unknown)").data, PState.eof, 0, 0⟩ ⟨EventType.EVENT_END, []⟩ 3
      = List.replicate 3 (⟨EventType.EVENT_END, []⟩, false) :=
  ⟨rfl, (C8_eof_absorbing ⟨[], ("(Unknown)").data, PState.eof, 0, 0⟩
      ⟨EventType.EVENT_END, []⟩ 3 rfl).2⟩

/-- C2: counterexample — the claim says that once an `Error` event has been
produced every subsequent `advance` yields `End`.  On the input `"!k=v"` the
first call produces an `Error` (unexpected symbol) but leaves `state_` at
`advance_gen`, so the second call resumes parsing and produces a `Name`
event. -/
theorem C2_error_then_resumes_cx :
    ((advance_run (construct (("!k=v").data)) ⟨EventType.EVENT_END, []⟩ 2).map
        fun r => (r.1.type, r.2))
      = [(EventType.EVENT_ERROR, false), (EventType.EVENT_NAME, true)] := by
  simp [advance_run, advance, construct, gen_loop, advance_param_core, param_loop,
    unexpected_token, err_msg, ostream_overwrite, symbol_desc, trim_right, isspace,
    isalnum, show_nat, skip_ws]

/-- C2: amended — only the errors raised at end of input move `state_` to
`advance_eof`; when an advance call has produced an `Error` event and left
the parser in the Eof state, every subsequent call produces `(End, "")` and
returns false.  (Errors on an in-stream character leave the state machine
where it was and parsing resumes, as the counterexample shows.) -/
theorem C2_error_at_eof_terminal (p : Parser) (e : Event)
    (_herr : (advance p e).2.1.type = EventType.EVENT_ERROR)
    (heof : (advance p e).1.state = PState.eof) (n : Nat) :
    advance_run (advance p e).1 (advance p e).2.1 n
      = List.replicate n (⟨EventType.EVENT_END, []⟩, false) :=
  advance_run_from_eof _ _ n heof

theorem C2_error_at_eof_terminal_witness :
    ((advance (construct (("[x").data)) ⟨EventType.EVENT_END, []⟩).2.1.type
        = EventType.EVENT_ERROR) ∧
    ((advance (construct (("[x").data)) ⟨EventType.EVENT_END, []⟩).1.state
        = PState.eof) ∧
    advance_run (advance (construct (("[x").data)) ⟨EventType.EVENT_END, []⟩).1
        (advance (construct (("[x").data)) ⟨EventType.EVENT_END, []⟩).2.1 2
      = List.replicate 2 (⟨EventType.EVENT_END, []⟩, false) :=
  ⟨by simp [advance, construct, gen_loop, advance_section_core, skip_ws, section_loop,
      unexpected_token, isspace],
   by simp [advance, construct, gen_loop, advance_section_core, skip_ws, section_loop,
      unexpected_token, isspace],
   C2_error_at_eof_terminal (construct (("[x").data)) ⟨EventType.EVENT_END, []⟩
     (by simp [advance, construct, gen_loop, advance_section_core, skip_ws,
        section_loop, unexpected_token, isspace])
     (by simp [advance, construct, gen_loop, advance_section_core, skip_ws,
        section_loop, unexpected_token, isspace]) 2⟩

/-- C5: counterexample — the parser is constructed with `line_(0)`, not line
1, and an unexpected symbol on the first line of input is reported with line
0: the error text for `"!"` is `"(Unknown):0:1: ..."`, not `":1:1:"` as a
1-based line number would give. -/
theorem C5_line_zero_based_cx :
    (construct (("!").data)).line = 0 ∧
    (advance (construct (("!").data)) ⟨EventType.EVENT_END, []⟩).2.1.value
      = ("(Unknown):0:1: Unexpected token: symbol ").data
          ++ [Char.ofNat 39, '!', Char.ofNat 39] ∧
    (advance (construct (("!").data)) ⟨EventType.EVENT_END, []⟩).2.1.value
      ≠ err_msg (("(Unknown)").data) 1 1 (symbol_desc ('!')) := by
  refine ⟨rfl, ?_, ?_⟩ <;>
    simp +decide [advance, construct, gen_loop, unexpected_token, err_msg,
      ostream_overwrite, symbol_desc, isspace, isalnum, show_nat]

/-- C5: amended — the parser is constructed with position `(0, 0)`; the line
number embedded in error texts is 0-based (an unexpected symbol on the first
line of input is reported with line 0), while the column counter is
incremented before each read, so the offending first character of a line is
column 1. -/
theorem C5_construction_position :
    (∀ f i, (construct_named f i).line = 0 ∧ (construct_named f i).pos = 0 ∧
      (construct i).line = 0 ∧ (construct i).pos = 0) ∧
    (advance (construct (("!").data)) ⟨EventType.EVENT_END, []⟩).2.1.value
      = err_msg (("(Unknown)").data) 0 1 (symbol_desc ('!')) := by
  refine ⟨fun f i => ⟨rfl, rfl, rfl, rfl⟩, ?_⟩
  simp [advance, construct, gen_loop, unexpected_token, ostream_overwrite,
    isspace, isalnum]

/-- C10: counterexample — the claim says the written event never depends on
the prior contents of the caller's event record.  But `advance_gen` never
clears `e.value`, and `unexpected_token` writes the message over the old
buffer without truncating it, so two advances from identical parser states
over the input `"!"` write different events when the records differ. -/
theorem C10_prior_record_leaks_cx :
    (advance (construct (("!").data)) ⟨EventType.EVENT_END, []⟩).2.1
      ≠ (advance (construct (("!").data))
          ⟨EventType.EVENT_END, List.replicate 60 ('x')⟩).2.1 := by
  simp +decide [advance, construct, gen_loop, unexpected_token, err_msg,
    ostream_overwrite, symbol_desc, isspace, isalnum, show_nat]

/-- C10: amended — the written event (and the whole result of `advance`) is
independent of the prior contents of the event record whenever the parser is
in the Value or Eof state, where the record is rebuilt from scratch; in the
General state the prior text can leak into an unexpected-symbol error, and a
comment running into end of input returns with the record unwritten. -/
theorem C10_independent_value_eof (p : Parser) (e e2 : Event)
    (h : p.state = PState.value ∨ p.state = PState.eof) :
    advance p e = advance p e2 := by
  obtain ⟨i, f, s, l, q⟩ := p
  rcases h with h | h
  · cases s with
    | general => simp at h
    | value => rfl
    | eof => simp at h
  · cases s with
    | general => simp at h
    | value => simp at h
    | eof => rfl

theorem C10_independent_value_eof_witness :
    ((⟨("v").data, ("(Unknown)").data, PState.value, 0, 0⟩ : Parser).state
        = PState.value ∨
      (⟨("v").data, ("(Unknown)").data, PState.value, 0, 0⟩ : Parser).state
        = PState.eof) ∧
    advance ⟨("v").data, ("(Unknown)").data, PState.value, 0, 0⟩
        ⟨EventType.EVENT_END, []⟩
      = advance ⟨("v").data, ("(Unknown)").data, PState.value, 0, 0⟩
          ⟨EventType.EVENT_SECTION, ("junk").data⟩ :=
  ⟨Or.inl rfl,
   C10_independent_value_eof ⟨("v").data, ("(Unknown)").data, PState.value, 0, 0⟩
     ⟨EventType.EVENT_END, []⟩ ⟨EventType.EVENT_SECTION, ("junk").data⟩ (Or.inl rfl)⟩

theorem value_loop_spec (i : List Char) (line pos : Nat) (acc : List Char) :
    (value_loop i line pos acc).e
        = ⟨EventType.EVENT_VALUE, trim_right (acc ++ i.takeWhile value_char)⟩ ∧
    (value_loop i line pos acc).ret = true := by
  induction i generalizing pos acc with
  | nil => simp [value_loop]
  | cons c cs ih =>
    by_cases h1 : (c == '\r') = true
    · have hv : value_char c = false := by simp [value_char, h1]
      simp [value_loop, h1, List.takeWhile_cons, hv]
    · by_cases h2 : (c == '\n') = true
      · have hv : value_char c = false := by simp [value_char, h2]
        simp [value_loop, h1, h2, List.takeWhile_cons, hv]
      · by_cases h3 : (c == ';') = true
        · have hv : value_char c = false := by simp [value_char, h3]
          simp [value_loop, h1, h2, h3, List.takeWhile_cons, hv]
        · have hv : value_char c = true := by simp [value_char, h1, h2, h3]
          rw [show value_loop (c :: cs) line pos acc
              = value_loop cs line (pos + 1) (acc ++ [c]) from by
            simp [value_loop, h1, h2, h3]]
          rw [List.takeWhile_cons, if_pos hv]
          refine ⟨?_, (ih (pos + 1) (acc ++ [c])).2⟩
          rw [(ih (pos + 1) (acc ++ [c])).1]
          simp

/-- C3: counterexample — the claim says a value never spans past an EOL that
precedes its first non-whitespace character.  But the leading-whitespace skip
after `=` uses `isspace`, which consumes `\n` and `\r` too, so on `"k=\nv"`
the value starts on the next line and the events are `(Name, "k")`,
`(Value, "v")` — not an empty value ending at the EOL. -/
theorem C3_value_spans_eol_cx :
    advance_run (construct (("k=\nv").data)) ⟨EventType.EVENT_END, []⟩ 2
      = [(⟨EventType.EVENT_NAME, ("k").data⟩, true),
         (⟨EventType.EVENT_VALUE, ("v").data⟩, true)] := by
  simp [advance_run, advance, construct, gen_loop, advance_param_core, param_loop,
    advance_value_core, value_loop, skip_ws, trim_right, isspace, isalnum]

/-- C3: amended — from the Value state, the emitted event is always
`kind=Value` with the call returning true (empty values, including at EOF,
are legal); its text runs from the first non-whitespace character after `=`
to the first `;`, EOL or EOF after it, right-trimmed — where the leading
whitespace that is skipped includes EOL characters, so a value may begin on
a line after the `=`. -/
theorem C3_value_characterisation (p : Parser) (e : Event)
    (h : p.state = PState.value) :
    (advance p e).2.1
        = ⟨EventType.EVENT_VALUE,
            trim_right ((p.input.dropWhile isspace).takeWhile value_char)⟩ ∧
    (advance p e).2.2 = true := by
  obtain ⟨i, f, s, l, q⟩ := p
  cases s with
  | general => simp at h
  | eof => simp at h
  | value =>
    have hin := skip_ws_input i q
    constructor
    · show (value_loop ((skip_ws i q).input) l ((skip_ws i q).pos) []).e = _
      rw [(value_loop_spec _ _ _ _).1, hin]
      simp
    · show (value_loop ((skip_ws i q).input) l ((skip_ws i q).pos) []).ret = true
      exact (value_loop_spec _ _ _ _).2

theorem C3_value_characterisation_witness :
    ((⟨(" x y ; c").data, ("(Unknown)").data, PState.value, 0, 0⟩ : Parser).state
        = PState.value) ∧
    (advance ⟨(" x y ; c").data, ("(Unknown)").data, PState.value, 0, 0⟩
        ⟨EventType.EVENT_END, []⟩).2.1
      = ⟨EventType.EVENT_VALUE,
          trim_right (((" x y ; c").data.dropWhile isspace).takeWhile value_char)⟩ ∧
    (advance ⟨(" x y ; c").data, ("(Unknown)").data, PState.value, 0, 0⟩
        ⟨EventType.EVENT_END, []⟩).2.2 = true :=
  ⟨rfl,
   (C3_value_characterisation ⟨(" x y ; c").data, ("(Unknown)").data, PState.value, 0, 0⟩
     ⟨EventType.EVENT_END, []⟩ rfl).1,
   (C3_value_characterisation ⟨(" x y ; c").data, ("(Unknown)").data, PState.value, 0, 0⟩
     ⟨EventType.EVENT_END, []⟩ rfl).2⟩

/-- C6: counterexample — the claim says `line` is incremented exactly once
per line terminator, including those consumed while skipping leading
whitespace after `=`.  On `"k=\nv"` both advances together consume the whole
input, including one `\n` (eaten by `skip_ws`, which never touches `line_`),
yet the final line counter is still 0. -/
theorem C6_skip_ws_skips_eol_cx :
    (advance (advance (construct (("k=\nv").data)) ⟨EventType.EVENT_END, []⟩).1
        (advance (construct (("k=\nv").data)) ⟨EventType.EVENT_END, []⟩).2.1).1.line
      = 0 ∧
    (advance (advance (construct (("k=\nv").data)) ⟨EventType.EVENT_END, []⟩).1
        (advance (construct (("k=\nv").data)) ⟨EventType.EVENT_END, []⟩).2.1).1.input
      = [] := by
  constructor <;>
    simp [advance, construct, gen_loop, advance_param_core, param_loop,
      advance_value_core, value_loop, skip_ws, trim_right, isspace, isalnum]

/-- C6: amended — `line` is incremented exactly once per line terminator
consumed through `handle_new_line`: scanning in the General state increments
it once for `\n` and once for `\r` (with a following `\n` collapsed by
`check_lf`), and a comment skip increments it exactly once unless it ran
into end of input without finding a terminator; but line terminators
consumed as leading whitespace by `skip_ws` (inside section brackets and
after `=`) do not increment the counter, as the counterexample shows. -/
theorem C6_line_increment_paths :
    (∀ (f : List Char) (e : Event) (cs : List Char) (line pos : Nat),
      gen_loop f e ('\n' :: cs) line pos = gen_loop f e cs (line + 1) 0) ∧
    (∀ (f : List Char) (e : Event) (cs : List Char) (line pos : Nat),
      gen_loop f e ('\r' :: cs) line pos
        = gen_loop f e (check_lf cs (pos + 1)).input (line + 1) 0) ∧
    (∀ (l : List Char) (line pos : Nat),
      (skip_comment l line pos).line = line + 1 ∨
        ((skip_comment l line pos).line = line ∧ (skip_comment l line pos).ok = false)) ∧
    (advance ⟨('\n' :: ('v' :: [])), ("(Unknown)").data, PState.value, 3, 7⟩
        ⟨EventType.EVENT_END, []⟩).1.line = 3 := by
  refine ⟨?_, ?_, ?_, by decide⟩
  · intro f e cs line pos
    rw [gen_loop]
    simp
  · intro f e cs line pos
    rw [gen_loop]
    simp
  · intro l
    induction l with
    | nil => intro line pos; right; simp [skip_comment]
    | cons c cs ih =>
      intro line pos
      by_cases h1 : (c == '\r') = true
      · left; simp [skip_comment, h1]
      · by_cases h2 : (c == '\n') = true
        · left; simp [skip_comment, h1, h2]
        · rw [show skip_comment (c :: cs) line pos = skip_comment cs line (pos + 1) from by
            simp [skip_comment, h1, h2]]
          exact ih line (pos + 1)

theorem section_loop_edge (f : List Char) (line : Nat) :
    ∀ (i : List Char) (pos : Nat) (acc : List Char),
      (∀ c, acc.head? = some c → isspace c = false) →
      (acc = [] → ∀ c, i.head? = some c → isspace c = false) →
      event_edge_ok (section_loop f i line pos acc).e := by
  intro i
  induction i with
  | nil =>
    intro pos acc hacc hin ht
    simp [section_loop, unexpected_token] at ht
  | cons c cs ih =>
    intro pos acc hacc hin
    by_cases h1 : (c == ';') = true
    · intro ht
      rw [show section_loop f (c :: cs) line pos acc
          = ⟨cs, line, pos + 1, PState.general,
              unexpected_token f line (pos + 1) ("comment").data acc, false⟩ from by
        simp [section_loop, h1]] at ht
      simp [unexpected_token] at ht
    · by_cases h2 : (c == '\r' || c == '\n') = true
      · intro ht
        rw [show section_loop f (c :: cs) line pos acc
            = ⟨cs, line, pos + 1, PState.general,
                unexpected_token f line (pos + 1) ("end of line").data acc, false⟩ from by
          simp only [section_loop]
          rw [if_neg (by simp [h1]), if_pos h2]] at ht
        simp [unexpected_token] at ht
      · by_cases h3 : (c == ']') = true
        · by_cases h4 : acc.isEmpty = true
          · intro ht
            rw [show section_loop f (c :: cs) line pos acc
                = ⟨cs, line, pos + 1, PState.general,
                    ⟨EventType.EVENT_ERROR,
                      trim_right (unexpected_token f line (pos + 1)
                        ("]").data acc).value⟩, true⟩ from by
              simp only [section_loop]
              rw [if_neg (by simp [h1]), if_neg (by simp [h2]), if_pos h3, if_pos h4]] at ht
            simp at ht
          · intro _
            rw [show section_loop f (c :: cs) line pos acc
                = ⟨cs, line, pos + 1, PState.general,
                    ⟨EventType.EVENT_SECTION, trim_right acc⟩, true⟩ from by
              simp only [section_loop]
              rw [if_neg (by simp [h1]), if_neg (by simp [h2]), if_pos h3, if_neg (by simp [h4])]]
            exact trim_right_edge acc hacc
        · rw [show section_loop f (c :: cs) line pos acc
              = section_loop f cs line (pos + 1) (acc ++ [c]) from by
            simp only [section_loop]
            rw [if_neg (by simp [h1]), if_neg (by simp [h2]), if_neg (by simp [h3])]]
          apply ih
          · intro d hd
            cases acc with
            | nil =>
              simp only [List.nil_append, List.head?_cons, Option.some.injEq] at hd
              rw [← hd]
              exact hin rfl c rfl
            | cons a as =>
              simp only [List.cons_append, List.head?_cons, Option.some.injEq] at hd
              rw [← hd]
              exact hacc a rfl
          · intro habs
            exact absurd habs (by simp)

theorem param_loop_edge (f : List Char) (line : Nat) :
    ∀ (i : List Char) (pos : Nat) (acc : List Char),
      (∀ c, acc.head? = some c → isspace c = false) →
      (acc = [] → ∀ c, i.head? = some c → isspace c = false) →
      event_edge_ok (param_loop f i line pos acc).e := by
  intro i
  induction i with
  | nil =>
    intro pos acc hacc hin ht
    simp [param_loop, unexpected_token] at ht
  | cons c cs ih =>
    intro pos acc hacc hin
    by_cases h1 : (c == ';') = true
    · intro ht
      rw [show param_loop f (c :: cs) line pos acc
          = ⟨cs, line, pos + 1, PState.general,
              unexpected_token f line (pos + 1) ("comment").data acc, false⟩ from by
        simp [param_loop, h1]] at ht
      simp [unexpected_token] at ht
    · by_cases h2 : (c == '\r') = true
      · intro ht
        rw [show param_loop f (c :: cs) line pos acc
            = ⟨(check_lf cs (pos + 1)).input, line, (check_lf cs (pos + 1)).pos,
                PState.general,
                unexpected_token f line ((check_lf cs (pos + 1)).pos)
                  ("new line").data acc, false⟩ from by
          simp only [param_loop]
          rw [if_neg (by simp [h1]), if_pos h2]] at ht
        simp [unexpected_token] at ht
      · by_cases h3 : (c == '\n') = true
        · intro ht
          rw [show param_loop f (c :: cs) line pos acc
              = ⟨cs, line, pos + 1, PState.general,
                  unexpected_token f line (pos + 1) ("new line").data acc, false⟩ from by
            simp only [param_loop]
            rw [if_neg (by simp [h1]), if_neg (by simp [h2]), if_pos h3]] at ht
          simp [unexpected_token] at ht
        · by_cases h4 : (c == '=') = true
          · intro _
            rw [show param_loop f (c :: cs) line pos acc
                = ⟨cs, line, pos + 1, PState.value,
                    ⟨EventType.EVENT_NAME, trim_right acc⟩, true⟩ from by
              simp only [param_loop]
              rw [if_neg (by simp [h1]), if_neg (by simp [h2]), if_neg (by simp [h3]),
                if_pos h4]]
            exact trim_right_edge acc hacc
          · rw [show param_loop f (c :: cs) line pos acc
                = param_loop f cs line (pos + 1) (acc ++ [c]) from by
              simp only [param_loop]
              rw [if_neg (by simp [h1]), if_neg (by simp [h2]), if_neg (by simp [h3]),
                if_neg (by simp [h4])]]
            apply ih
            · intro d hd
              cases acc with
              | nil =>
                simp only [List.nil_append, List.head?_cons, Option.some.injEq] at hd
                rw [← hd]
                exact hin rfl c rfl
              | cons a as =>
                simp only [List.cons_append, List.head?_cons, Option.some.injEq] at hd
                rw [← hd]
                exact hacc a rfl
            · intro habs
              exact absurd habs (by simp)

theorem value_loop_edge (line : Nat) :
    ∀ (i : List Char) (pos : Nat) (acc : List Char),
      (∀ c, acc.head? = some c → isspace c = false) →
      (acc = [] → ∀ c, i.head? = some c → isspace c = false) →
      event_edge_ok (value_loop i line pos acc).e := by
  intro i
  induction i with
  | nil =>
    intro pos acc hacc hin _
    rw [show value_loop [] line pos acc
        = ⟨[], line, pos + 1, PState.eof,
            ⟨EventType.EVENT_VALUE, trim_right acc⟩, true⟩ from by simp [value_loop]]
    exact trim_right_edge acc hacc
  | cons c cs ih =>
    intro pos acc hacc hin
    by_cases h1 : (c == '\r') = true
    · intro _
      rw [show value_loop (c :: cs) line pos acc
          = ⟨(check_lf cs (pos + 1)).input, line + 1, 0, PState.general,
              ⟨EventType.EVENT_VALUE, trim_right acc⟩, true⟩ from by
        simp [value_loop, h1]]
      exact trim_right_edge acc hacc
    · by_cases h2 : (c == '\n') = true
      · intro _
        rw [show value_loop (c :: cs) line pos acc
            = ⟨cs, line + 1, 0, PState.general,
                ⟨EventType.EVENT_VALUE, trim_right acc⟩, true⟩ from by
          simp only [value_loop]
          rw [if_neg (by simp [h1]), if_pos h2]]
        exact trim_right_edge acc hacc
      · by_cases h3 : (c == ';') = true
        · intro _
          rw [show value_loop (c :: cs) line pos acc
              = ⟨(skip_comment cs line (pos + 1)).input, (skip_comment cs line (pos + 1)).line,
                  (skip_comment cs line (pos + 1)).pos,
                  if (skip_comment cs line (pos + 1)).ok then PState.general else PState.eof,
                  ⟨EventType.EVENT_VALUE, trim_right acc⟩, true⟩ from by
            simp only [value_loop]
            rw [if_neg (by simp [h1]), if_neg (by simp [h2]), if_pos h3]]
          exact trim_right_edge acc hacc
        · rw [show value_loop (c :: cs) line pos acc
              = value_loop cs line (pos + 1) (acc ++ [c]) from by
            simp only [value_loop]
            rw [if_neg (by simp [h1]), if_neg (by simp [h2]), if_neg (by simp [h3])]]
          apply ih
          · intro d hd
            cases acc with
            | nil =>
              simp only [List.nil_append, List.head?_cons, Option.some.injEq] at hd
              rw [← hd]
              exact hin rfl c rfl
            | cons a as =>
              simp only [List.cons_append, List.head?_cons, Option.some.injEq] at hd
              rw [← hd]
              exact hacc a rfl
          · intro habs
            exact absurd habs (by simp)

theorem advance_section_core_edge (f input : List Char) (line pos : Nat) :
    event_edge_ok (advance_section_core f input line pos).e := by
  apply section_loop_edge
  · intro c hc
    simp at hc
  · intro _ c hc
    rw [skip_ws_input] at hc
    exact dropWhile_head_not _ _ _ hc

theorem advance_param_core_edge (f : List Char) (c : Char) (cs : List Char)
    (line pos : Nat) (h : isalnum c = true) :
    event_edge_ok (advance_param_core f (c :: cs) line pos).e := by
  apply param_loop_edge
  · intro d hd
    simp at hd
  · intro _ d hd
    simp only [List.head?_cons, Option.some.injEq] at hd
    rw [← hd]
    exact isalnum_not_space c h

theorem advance_value_core_edge (input : List Char) (line pos : Nat) :
    event_edge_ok (advance_value_core input line pos).e := by
  apply value_loop_edge
  · intro c hc
    simp at hc
  · intro _ c hc
    rw [skip_ws_input] at hc
    exact dropWhile_head_not _ _ _ hc

theorem gen_loop_edge (f : List Char) (e : Event) (i : List Char) (line pos : Nat)
    (he : event_edge_ok e) : event_edge_ok (gen_loop f e i line pos).e := by
  induction i, line, pos using gen_loop.induct f e with
  | case1 line pos =>
    intro ht
    simp [gen_loop] at ht
  | case2 c cs line pos h1 ih =>
    rw [show gen_loop f e (c :: cs) line pos
        = gen_loop f e (check_lf cs (pos + 1)).input (line + 1) 0 from by
      rw [gen_loop]
      rw [if_pos h1]]
    exact ih
  | case3 c cs line pos h1 h2 ih =>
    rw [show gen_loop f e (c :: cs) line pos = gen_loop f e cs (line + 1) 0 from by
      rw [gen_loop]
      rw [if_neg h1, if_pos h2]]
    exact ih
  | case4 c cs line pos h1 h2 h3 r hok ih =>
    rw [show gen_loop f e (c :: cs) line pos
        = gen_loop f e (skip_comment cs line (pos + 1)).input
            (skip_comment cs line (pos + 1)).line (skip_comment cs line (pos + 1)).pos from by
      rw [gen_loop]
      rw [if_neg h1, if_neg h2, if_pos h3, if_pos hok]]
    exact ih
  | case5 c cs line pos h1 h2 h3 r hok =>
    rw [show gen_loop f e (c :: cs) line pos
        = ⟨(skip_comment cs line (pos + 1)).input, (skip_comment cs line (pos + 1)).line,
            (skip_comment cs line (pos + 1)).pos, PState.general, e, false⟩ from by
      rw [gen_loop]
      rw [if_neg h1, if_neg h2, if_pos h3, if_neg hok]]
    exact he
  | case6 c cs line pos h1 h2 h3 h4 =>
    rw [show gen_loop f e (c :: cs) line pos
        = advance_section_core f cs line (pos + 1) from by
      rw [gen_loop]
      rw [if_neg h1, if_neg h2, if_neg h3, if_pos h4]]
    exact advance_section_core_edge f cs line (pos + 1)
  | case7 c cs line pos h1 h2 h3 h4 h5 ih =>
    rw [show gen_loop f e (c :: cs) line pos = gen_loop f e cs line (pos + 1) from by
      rw [gen_loop]
      rw [if_neg h1, if_neg h2, if_neg h3, if_neg h4, if_pos h5]]
    exact ih
  | case8 c cs line pos h1 h2 h3 h4 h5 h6 =>
    rw [show gen_loop f e (c :: cs) line pos
        = advance_param_core f (c :: cs) line pos from by
      rw [gen_loop]
      rw [if_neg h1, if_neg h2, if_neg h3, if_neg h4, if_neg h5, if_pos h6]]
    exact advance_param_core_edge f c cs line pos h6
  | case9 c cs line pos h1 h2 h3 h4 h5 h6 =>
    intro ht
    rw [show gen_loop f e (c :: cs) line pos
        = ⟨cs, line, pos + 1, PState.general,
            unexpected_token f line (pos + 1) (symbol_desc c) e.value, false⟩ from by
      rw [gen_loop]
      rw [if_neg h1, if_neg h2, if_neg h3, if_neg h4, if_neg h5, if_neg h6]] at ht
    simp [unexpected_token] at ht

theorem advance_edge (p : Parser) (e : Event) (he : event_edge_ok e) :
    event_edge_ok (advance p e).2.1 := by
  obtain ⟨i, f, s, l, q⟩ := p
  cases s with
  | general => exact gen_loop_edge f e i l q he
  | value => exact advance_value_core_edge i l q
  | eof =>
    intro ht
    rcases ht with h | h | h <;> simp [advance] at h

theorem advance_run_edge (p : Parser) (e : Event) (n : Nat)
    (he : event_edge_ok e) :
    ∀ ev b, (ev, b) ∈ advance_run p e n → event_edge_ok ev := by
  induction n generalizing p e with
  | zero =>
    intro ev b h
    simp [advance_run] at h
  | succ n ih =>
    intro ev b h
    simp only [advance_run] at h
    rcases List.mem_cons.mp h with h | h
    · have hev : ev = (advance p e).2.1 := congrArg Prod.fst h
      rw [hev]
      exact advance_edge p e he
    · exact ih (advance p e).1 (advance p e).2.1 (advance_edge p e he) ev b h

/-- C7: confirmed — every `Section`, `Name` or `Value` event emitted while
parsing any input (starting from a freshly constructed parser and an
initially clean `(End, "")` record, as the unit tests do) has no leading and
no trailing whitespace, while whitespace strictly inside the token is
preserved: `"[ section 2 ]"` yields the Section text `"section 2"`. -/
theorem C7_no_edge_whitespace :
    (∀ (input : List Char) (n : Nat) (ev : Event) (b : Bool),
      (ev, b) ∈ advance_run (construct input) ⟨EventType.EVENT_END, []⟩ n →
      (ev.type = EventType.EVENT_SECTION ∨ ev.type = EventType.EVENT_NAME ∨
        ev.type = EventType.EVENT_VALUE) →
      no_edge_ws ev.value = true) ∧
    advance_run (construct (("[ section 2 ]").data)) ⟨EventType.EVENT_END, []⟩ 1
      = [(⟨EventType.EVENT_SECTION, ("section 2").data⟩, true)] := by
  constructor
  · intro input n ev b hmem ht
    refine advance_run_edge (construct input) ⟨EventType.EVENT_END, []⟩ n ?_ ev b hmem ht
    intro hd
    rcases hd with h | h | h <;> exact absurd h (by decide)
  · simp [advance_run, advance, construct, gen_loop, advance_section_core, skip_ws,
      section_loop, trim_right, isspace]

theorem C7_no_edge_whitespace_witness :
    no_edge_ws (("section 2").data) = true :=
  C7_no_edge_whitespace.1 (("[ section 2 ]").data) 1
    ⟨EventType.EVENT_SECTION, ("section 2").data⟩ true
    (by rw [C7_no_edge_whitespace.2]; exact List.mem_singleton.mpr rfl)
    (Or.inl rfl)

theorem trim_right_append_last (xs : List Char) (c : Char) (h : isspace c = false) :
    trim_right (xs ++ [c]) = xs ++ [c] := by
  unfold trim_right
  rw [List.reverse_append]
  simp only [List.reverse_cons, List.reverse_nil, List.nil_append, List.singleton_append]
  rw [List.dropWhile_cons, if_neg (by simp [h])]
  simp

theorem trim_right_err_msg_rbracket (f : List Char) (l p : Nat) :
    trim_right (err_msg f l p (("]").data)) = err_msg f l p (("]").data) := by
  have he : err_msg f l p (("]").data)
      = (f ++ (":").data ++ show_nat l ++ (":").data ++ show_nat p
          ++ (": Unexpected token: ").data) ++ [']'] := by
    simp [err_msg, List.append_assoc]
  rw [he]
  exact trim_right_append_last _ ']' (by decide)

theorem section_loop_err (f : List Char) (line : Nat) :
    ∀ (i : List Char) (pos : Nat) (acc : List Char),
      (section_loop f i line pos acc).e.type = EventType.EVENT_ERROR →
      err_prefixed f (section_loop f i line pos acc).e.value := by
  intro i
  induction i with
  | nil =>
    intro pos acc _
    refine ⟨line, pos + 1, ("end of file").data, [], Or.inl rfl, ?_⟩
    simp [section_loop, unexpected_token, ostream_overwrite]
  | cons c cs ih =>
    intro pos acc
    by_cases h1 : (c == ';') = true
    · intro _
      refine ⟨line, pos + 1, ("comment").data,
        acc.drop (err_msg f line (pos + 1) (("comment").data)).length,
        Or.inr (Or.inr (Or.inl rfl)), ?_⟩
      rw [show section_loop f (c :: cs) line pos acc
          = ⟨cs, line, pos + 1, PState.general,
              unexpected_token f line (pos + 1) ("comment").data acc, false⟩ from by
        simp [section_loop, h1]]
      simp [unexpected_token, ostream_overwrite]
    · by_cases h2 : (c == '\r' || c == '\n') = true
      · intro _
        refine ⟨line, pos + 1, ("end of line").data,
          acc.drop (err_msg f line (pos + 1) (("end of line").data)).length,
          Or.inr (Or.inl rfl), ?_⟩
        rw [show section_loop f (c :: cs) line pos acc
            = ⟨cs, line, pos + 1, PState.general,
                unexpected_token f line (pos + 1) ("end of line").data acc, false⟩ from by
          simp only [section_loop]
          rw [if_neg (by simp [h1]), if_pos h2]]
        simp [unexpected_token, ostream_overwrite]
      · by_cases h3 : (c == ']') = true
        · by_cases h4 : acc.isEmpty = true
          · intro _
            have hacc : acc = [] := List.isEmpty_iff.mp h4
            refine ⟨line, pos + 1, ("]").data, [], Or.inr (Or.inr (Or.inr (Or.inr (Or.inl rfl)))), ?_⟩
            rw [show section_loop f (c :: cs) line pos acc
                = ⟨cs, line, pos + 1, PState.general,
                    ⟨EventType.EVENT_ERROR,
                      trim_right (unexpected_token f line (pos + 1)
                        ("]").data acc).value⟩, true⟩ from by
              simp only [section_loop]
              rw [if_neg (by simp [h1]), if_neg (by simp [h2]), if_pos h3, if_pos h4]]
            subst hacc
            simp only [unexpected_token, ostream_overwrite, List.drop_nil, List.append_nil]
            exact trim_right_err_msg_rbracket f line (pos + 1)
          · intro ht
            rw [show section_loop f (c :: cs) line pos acc
                = ⟨cs, line, pos + 1, PState.general,
                    ⟨EventType.EVENT_SECTION, trim_right acc⟩, true⟩ from by
              simp only [section_loop]
              rw [if_neg (by simp [h1]), if_neg (by simp [h2]), if_pos h3, if_neg (by simp [h4])]] at ht
            simp at ht
        · rw [show section_loop f (c :: cs) line pos acc
              = section_loop f cs line (pos + 1) (acc ++ [c]) from by
            simp only [section_loop]
            rw [if_neg (by simp [h1]), if_neg (by simp [h2]), if_neg (by simp [h3])]]
          exact ih (pos + 1) (acc ++ [c])

theorem param_loop_err (f : List Char) (line : Nat) :
    ∀ (i : List Char) (pos : Nat) (acc : List Char),
      (param_loop f i line pos acc).e.type = EventType.EVENT_ERROR →
      err_prefixed f (param_loop f i line pos acc).e.value := by
  intro i
  induction i with
  | nil =>
    intro pos acc _
    refine ⟨line, pos + 1, ("end of line").data,
      acc.drop (err_msg f line (pos + 1) (("end of line").data)).length,
      Or.inr (Or.inl rfl), ?_⟩
    simp [param_loop, unexpected_token, ostream_overwrite]
  | cons c cs ih =>
    intro pos acc
    by_cases h1 : (c == ';') = true
    · intro _
      refine ⟨line, pos + 1, ("comment").data,
        acc.drop (err_msg f line (pos + 1) (("comment").data)).length,
        Or.inr (Or.inr (Or.inl rfl)), ?_⟩
      rw [show param_loop f (c :: cs) line pos acc
          = ⟨cs, line, pos + 1, PState.general,
              unexpected_token f line (pos + 1) ("comment").data acc, false⟩ from by
        simp [param_loop, h1]]
      simp [unexpected_token, ostream_overwrite]
    · by_cases h2 : (c == '\r') = true
      · intro _
        refine ⟨line, (check_lf cs (pos + 1)).pos, ("new line").data,
          acc.drop (err_msg f line ((check_lf cs (pos + 1)).pos) (("new line").data)).length,
          Or.inr (Or.inr (Or.inr (Or.inl rfl))), ?_⟩
        rw [show param_loop f (c :: cs) line pos acc
            = ⟨(check_lf cs (pos + 1)).input, line, (check_lf cs (pos + 1)).pos,
                PState.general,
                unexpected_token f line ((check_lf cs (pos + 1)).pos)
                  ("new line").data acc, false⟩ from by
          simp only [param_loop]
          rw [if_neg (by simp [h1]), if_pos h2]]
        simp [unexpected_token, ostream_overwrite]
      · by_cases h3 : (c == '\n') = true
        · intro _
          refine ⟨line, pos + 1, ("new line").data,
            acc.drop (err_msg f line (pos + 1) (("new line").data)).length,
            Or.inr (Or.inr (Or.inr (Or.inl rfl))), ?_⟩
          rw [show param_loop f (c :: cs) line pos acc
              = ⟨cs, line, pos + 1, PState.general,
                  unexpected_token f line (pos + 1) ("new line").data acc, false⟩ from by
            simp only [param_loop]
            rw [if_neg (by simp [h1]), if_neg (by simp [h2]), if_pos h3]]
          simp [unexpected_token, ostream_overwrite]
        · by_cases h4 : (c == '=') = true
          · intro ht
            rw [show param_loop f (c :: cs) line pos acc
                = ⟨cs, line, pos + 1, PState.value,
                    ⟨EventType.EVENT_NAME, trim_right acc⟩, true⟩ from by
              simp only [param_loop]
              rw [if_neg (by simp [h1]), if_neg (by simp [h2]), if_neg (by simp [h3]),
                if_pos h4]] at ht
            simp at ht
          · rw [show param_loop f (c :: cs) line pos acc
                = param_loop f cs line (pos + 1) (acc ++ [c]) from by
              simp only [param_loop]
              rw [if_neg (by simp [h1]), if_neg (by simp [h2]), if_neg (by simp [h3]),
                if_neg (by simp [h4])]]
            exact ih (pos + 1) (acc ++ [c])

theorem gen_loop_err (f : List Char) (e : Event) (i : List Char) (line pos : Nat) :
    (gen_loop f e i line pos).e.type = EventType.EVENT_ERROR →
    (gen_loop f e i line pos).e = e ∨ err_prefixed f (gen_loop f e i line pos).e.value := by
  induction i, line, pos using gen_loop.induct f e with
  | case1 line pos =>
    intro ht
    simp [gen_loop] at ht
  | case2 c cs line pos h1 ih =>
    rw [show gen_loop f e (c :: cs) line pos
        = gen_loop f e (check_lf cs (pos + 1)).input (line + 1) 0 from by
      rw [gen_loop]
      rw [if_pos h1]]
    exact ih
  | case3 c cs line pos h1 h2 ih =>
    rw [show gen_loop f e (c :: cs) line pos = gen_loop f e cs (line + 1) 0 from by
      rw [gen_loop]
      rw [if_neg h1, if_pos h2]]
    exact ih
  | case4 c cs line pos h1 h2 h3 r hok ih =>
    rw [show gen_loop f e (c :: cs) line pos
        = gen_loop f e (skip_comment cs line (pos + 1)).input
            (skip_comment cs line (pos + 1)).line (skip_comment cs line (pos + 1)).pos from by
      rw [gen_loop]
      rw [if_neg h1, if_neg h2, if_pos h3, if_pos hok]]
    exact ih
  | case5 c cs line pos h1 h2 h3 r hok =>
    intro _
    rw [show gen_loop f e (c :: cs) line pos
        = ⟨(skip_comment cs line (pos + 1)).input, (skip_comment cs line (pos + 1)).line,
            (skip_comment cs line (pos + 1)).pos, PState.general, e, false⟩ from by
      rw [gen_loop]
      rw [if_neg h1, if_neg h2, if_pos h3, if_neg hok]]
    exact Or.inl rfl
  | case6 c cs line pos h1 h2 h3 h4 =>
    rw [show gen_loop f e (c :: cs) line pos
        = advance_section_core f cs line (pos + 1) from by
      rw [gen_loop]
      rw [if_neg h1, if_neg h2, if_neg h3, if_pos h4]]
    rw [show advance_section_core f cs line (pos + 1)
        = section_loop f ((skip_ws cs (pos + 1)).input) line
            ((skip_ws cs (pos + 1)).pos) [] from rfl]
    intro ht
    exact Or.inr (section_loop_err f line _ _ _ ht)
  | case7 c cs line pos h1 h2 h3 h4 h5 ih =>
    rw [show gen_loop f e (c :: cs) line pos = gen_loop f e cs line (pos + 1) from by
      rw [gen_loop]
      rw [if_neg h1, if_neg h2, if_neg h3, if_neg h4, if_pos h5]]
    exact ih
  | case8 c cs line pos h1 h2 h3 h4 h5 h6 =>
    rw [show gen_loop f e (c :: cs) line pos
        = advance_param_core f (c :: cs) line pos from by
      rw [gen_loop]
      rw [if_neg h1, if_neg h2, if_neg h3, if_neg h4, if_neg h5, if_pos h6]]
    rw [show advance_param_core f (c :: cs) line pos
        = param_loop f (c :: cs) line pos [] from rfl]
    intro ht
    exact Or.inr (param_loop_err f line _ _ _ ht)
  | case9 c cs line pos h1 h2 h3 h4 h5 h6 =>
    intro _
    rw [show gen_loop f e (c :: cs) line pos
        = ⟨cs, line, pos + 1, PState.general,
            unexpected_token f line (pos + 1) (symbol_desc c) e.value, false⟩ from by
      rw [gen_loop]
      rw [if_neg h1, if_neg h2, if_neg h3, if_neg h4, if_neg h5, if_neg h6]]
    refine Or.inr ⟨line, pos + 1, symbol_desc c,
      e.value.drop (err_msg f line (pos + 1) (symbol_desc c)).length,
      Or.inr (Or.inr (Or.inr (Or.inr (Or.inr ⟨c, rfl⟩)))), ?_⟩
    simp [unexpected_token, ostream_overwrite]

/-- C4: counterexample — the claim says every Error text is exactly the
formatted diagnostic and nothing more.  But `unexpected_token` builds its
`ostringstream` from the previous buffer contents without truncating them:
advancing over `"!"` with 60 characters of prior text in the record yields
the 43-character message followed by the 17 surviving tail characters. -/
theorem C4_error_text_leftover_cx :
    (advance (construct (("!").data))
        ⟨EventType.EVENT_END, List.replicate 60 ('x')⟩).2.1.type
      = EventType.EVENT_ERROR ∧
    (advance (construct (("!").data))
        ⟨EventType.EVENT_END, List.replicate 60 ('x')⟩).2.1.value
      = err_msg (("(Unknown)").data) 0 1 (symbol_desc ('!')) ++ List.replicate 17 ('x') ∧
    (advance (construct (("!").data))
        ⟨EventType.EVENT_END, List.replicate 60 ('x')⟩).2.1.value
      ≠ err_msg (("(Unknown)").data) 0 1 (symbol_desc ('!')) := by
  refine ⟨?_, ?_, ?_⟩ <;>
    simp +decide [advance, construct, gen_loop, unexpected_token, err_msg,
      ostream_overwrite, symbol_desc, isspace, isalnum, show_nat]

/-- C4: amended — every Error event newly written by an advance call (the
comment-at-EOF path in the General state returns with the record unwritten,
hence the written-event guard) has a text that BEGINS with
`<filename>:<line>:<column>: Unexpected token: <description>`, with
`<description>` one of the fixed per-state strings or `symbol '<c>'`,
truncated at the first NUL of the C-string buffer: an offending `'\0'` byte
yields just `symbol '` with no character and no closing quote.  The text is
exactly that message when the overwritten buffer (the accumulated token, or
the caller's prior text in the General state) is no longer than the message,
but a longer buffer survives as a tail after the message. -/
theorem C4_error_format (p : Parser) (e : Event)
    (herr : (advance p e).2.1.type = EventType.EVENT_ERROR)
    (hne : (advance p e).2.1 ≠ e) :
    err_prefixed p.filename (advance p e).2.1.value := by
  obtain ⟨i, f, s, l, q⟩ := p
  cases s with
  | general =>
    rcases gen_loop_err f e i l q herr with h | h
    · exact absurd h hne
    · exact h
  | value =>
    exfalso
    rw [show (advance ⟨i, f, PState.value, l, q⟩ e).2.1
        = (value_loop ((skip_ws i q).input) l ((skip_ws i q).pos) []).e from rfl,
      (value_loop_spec ((skip_ws i q).input) l ((skip_ws i q).pos) []).1] at herr
    simp at herr
  | eof =>
    exfalso
    simp [advance] at herr

theorem C4_error_format_witness :
    ((advance (construct (("!").data)) ⟨EventType.EVENT_END, []⟩).2.1.type
        = EventType.EVENT_ERROR) ∧
    ((advance (construct (("!").data)) ⟨EventType.EVENT_END, []⟩).2.1
        ≠ ⟨EventType.EVENT_END, []⟩) ∧
    err_prefixed ((construct (("!").data)).filename)
      (advance (construct (("!").data)) ⟨EventType.EVENT_END, []⟩).2.1.value ∧
    ((advance (construct [Char.ofNat 0]) ⟨EventType.EVENT_END, []⟩).2.1.type
        = EventType.EVENT_ERROR) ∧
    ((advance (construct [Char.ofNat 0]) ⟨EventType.EVENT_END, []⟩).2.1
        ≠ ⟨EventType.EVENT_END, []⟩) ∧
    err_prefixed ((construct [Char.ofNat 0]).filename)
      (advance (construct [Char.ofNat 0]) ⟨EventType.EVENT_END, []⟩).2.1.value ∧
    (advance (construct [Char.ofNat 0]) ⟨EventType.EVENT_END, []⟩).2.1.value
      = ("(Unknown):0:1: Unexpected token: symbol ").data ++ [Char.ofNat 39] :=
  ⟨by simp [advance, construct, gen_loop, unexpected_token, isspace, isalnum],
   by simp [advance, construct, gen_loop, unexpected_token, isspace, isalnum],
   C4_error_format (construct (("!").data)) ⟨EventType.EVENT_END, []⟩
     (by simp [advance, construct, gen_loop, unexpected_token, isspace, isalnum])
     (by simp [advance, construct, gen_loop, unexpected_token, isspace, isalnum]),
   by simp [advance, construct, gen_loop, unexpected_token, isspace, isalnum],
   by simp [advance, construct, gen_loop, unexpected_token, isspace, isalnum],
   C4_error_format (construct [Char.ofNat 0]) ⟨EventType.EVENT_END, []⟩
     (by simp [advance, construct, gen_loop, unexpected_token, isspace, isalnum])
     (by simp [advance, construct, gen_loop, unexpected_token, isspace, isalnum]),
   by simp +decide [advance, construct, gen_loop, unexpected_token, err_msg,
     ostream_overwrite, symbol_desc, isspace, isalnum, show_nat]⟩

theorem trim_right_all_not_space (l : List Char) (h : ∀ x ∈ l, isspace x = false) :
    trim_right l = l := by
  cases hr : l.reverse with
  | nil =>
    have hl : l = [] := by
      rw [← List.reverse_reverse l, hr]
      rfl
    rw [hl]
    rfl
  | cons x xs =>
    have hx : isspace x = false := by
      refine h x ?_
      rw [← List.mem_reverse, hr]
      simp
    unfold trim_right
    rw [hr, List.dropWhile_cons, if_neg (by simp [hx]), ← hr, List.reverse_reverse]

theorem good_text_spec (s : List Char) (h : good_text s = true) :
    s ≠ [] ∧ ∀ x ∈ s, plain_char x = true := by
  unfold good_text at h
  rw [Bool.and_eq_true] at h
  obtain ⟨h1, h2⟩ := h
  constructor
  · intro hnil
    rw [hnil] at h1
    simp at h1
  · simpa [List.all_eq_true] using h2

theorem good_name_spec (k : List Char) (h : good_name k = true) :
    ∃ c cs, k = c :: cs ∧ isalnum c = true ∧ ∀ x ∈ k, plain_char x = true := by
  cases k with
  | nil => simp [good_name] at h
  | cons c cs =>
    simp only [good_name, Bool.and_eq_true] at h
    obtain ⟨⟨ha, _⟩, hall⟩ := h
    exact ⟨c, cs, rfl, ha, by simpa [List.all_eq_true] using hall⟩

theorem section_loop_app (f : List Char) (line : Nat) :
    ∀ (xs rest : List Char) (pos : Nat) (acc : List Char),
      (∀ x ∈ xs, plain_char x = true) →
      acc ++ xs ≠ [] →
      section_loop f (xs ++ ']' :: rest) line pos acc
        = ⟨rest, line, pos + xs.length + 1, PState.general,
            ⟨EventType.EVENT_SECTION, trim_right (acc ++ xs)⟩, true⟩ := by
  intro xs
  induction xs with
  | nil =>
    intro rest pos acc _ hne
    have hne2 : acc ≠ [] := by simpa using hne
    rw [show ([] : List Char) ++ ']' :: rest = ']' :: rest from rfl]
    rw [show section_loop f (']' :: rest) line pos acc
        = ⟨rest, line, pos + 1, PState.general,
            ⟨EventType.EVENT_SECTION, trim_right acc⟩, true⟩ from by
      simp only [section_loop]
      rw [if_neg (by decide), if_neg (by decide), if_pos (by decide),
        if_neg (by simp [List.isEmpty_iff, hne2])]]
    simp
  | cons x xs ih =>
    intro rest pos acc hp hne
    have hx := plain_char_facts x (hp x (by simp))
    rw [show (x :: xs) ++ ']' :: rest = x :: (xs ++ ']' :: rest) from rfl]
    rw [show section_loop f (x :: (xs ++ ']' :: rest)) line pos acc
        = section_loop f (xs ++ ']' :: rest) line (pos + 1) (acc ++ [x]) from by
      simp only [section_loop]
      rw [if_neg (by simp [hx.1]), if_neg (by simp [hx.2.2.2.2.2.1, hx.2.2.2.2.2.2]),
        if_neg (by simp [hx.2.2.1])]]
    rw [ih rest (pos + 1) (acc ++ [x]) (fun y hy => hp y (by simp [hy])) (by simp)]
    simp only [AdvR.mk.injEq, Event.mk.injEq, List.length_cons, List.append_assoc,
      List.singleton_append, List.cons_append, List.nil_append, and_true, true_and]
    omega

theorem param_loop_app (f : List Char) (line : Nat) :
    ∀ (xs rest : List Char) (pos : Nat) (acc : List Char),
      (∀ x ∈ xs, plain_char x = true) →
      param_loop f (xs ++ '=' :: rest) line pos acc
        = ⟨rest, line, pos + xs.length + 1, PState.value,
            ⟨EventType.EVENT_NAME, trim_right (acc ++ xs)⟩, true⟩ := by
  intro xs
  induction xs with
  | nil =>
    intro rest pos acc _
    rw [show ([] : List Char) ++ '=' :: rest = '=' :: rest from rfl]
    rw [show param_loop f ('=' :: rest) line pos acc
        = ⟨rest, line, pos + 1, PState.value,
            ⟨EventType.EVENT_NAME, trim_right acc⟩, true⟩ from by
      simp only [param_loop]
      rw [if_neg (by decide), if_neg (by decide), if_neg (by decide), if_pos (by decide)]]
    simp
  | cons x xs ih =>
    intro rest pos acc hp
    have hx := plain_char_facts x (hp x (by simp))
    rw [show (x :: xs) ++ '=' :: rest = x :: (xs ++ '=' :: rest) from rfl]
    rw [show param_loop f (x :: (xs ++ '=' :: rest)) line pos acc
        = param_loop f (xs ++ '=' :: rest) line (pos + 1) (acc ++ [x]) from by
      simp only [param_loop]
      rw [if_neg (by simp [hx.1]), if_neg (by simp [hx.2.2.2.2.2.1]),
        if_neg (by simp [hx.2.2.2.2.2.2]), if_neg (by simp [hx.2.2.2.1])]]
    rw [ih rest (pos + 1) (acc ++ [x]) (fun y hy => hp y (by simp [hy]))]
    simp only [AdvR.mk.injEq, Event.mk.injEq, List.length_cons, List.append_assoc,
      List.singleton_append, List.cons_append, List.nil_append, and_true, true_and]
    omega

theorem value_loop_app (line : Nat) :
    ∀ (xs rest : List Char) (pos : Nat) (acc : List Char),
      (∀ x ∈ xs, plain_char x = true) →
      value_loop (xs ++ '\n' :: rest) line pos acc
        = ⟨rest, line + 1, 0, PState.general,
            ⟨EventType.EVENT_VALUE, trim_right (acc ++ xs)⟩, true⟩ := by
  intro xs
  induction xs with
  | nil =>
    intro rest pos acc _
    rw [show ([] : List Char) ++ '\n' :: rest = '\n' :: rest from rfl]
    rw [show value_loop ('\n' :: rest) line pos acc
        = ⟨rest, line + 1, 0, PState.general,
            ⟨EventType.EVENT_VALUE, trim_right acc⟩, true⟩ from by
      simp only [value_loop]
      rw [if_neg (by decide), if_pos (by decide)]]
    simp
  | cons x xs ih =>
    intro rest pos acc hp
    have hx := plain_char_facts x (hp x (by simp))
    rw [show (x :: xs) ++ '\n' :: rest = x :: (xs ++ '\n' :: rest) from rfl]
    rw [show value_loop (x :: (xs ++ '\n' :: rest)) line pos acc
        = value_loop (xs ++ '\n' :: rest) line (pos + 1) (acc ++ [x]) from by
      simp only [value_loop]
      rw [if_neg (by simp [hx.2.2.2.2.2.1]), if_neg (by simp [hx.2.2.2.2.2.2]),
        if_neg (by simp [hx.1])]]
    rw [ih rest (pos + 1) (acc ++ [x]) (fun y hy => hp y (by simp [hy]))]
    simp [AdvR.mk.injEq, Event.mk.injEq, List.append_assoc]

theorem advance_general_eq (i f : List Char) (line pos : Nat) (e : Event) :
    advance ⟨i, f, PState.general, line, pos⟩ e
      = (⟨(gen_loop f e i line pos).input, f, (gen_loop f e i line pos).state,
          (gen_loop f e i line pos).line, (gen_loop f e i line pos).pos⟩,
         (gen_loop f e i line pos).e, (gen_loop f e i line pos).ret) := rfl

theorem advance_run_succ (p : Parser) (e : Event) (n : Nat) :
    advance_run p e (n + 1)
      = ((advance p e).2.1, (advance p e).2.2)
          :: advance_run (advance p e).1 (advance p e).2.1 n := rfl

theorem gen_loop_lf_step (f : List Char) (e : Event) (cs : List Char) (line pos : Nat) :
    gen_loop f e ('\n' :: cs) line pos = gen_loop f e cs (line + 1) 0 := by
  rw [gen_loop]
  simp

theorem advance_lf_step (f T : List Char) (line pos : Nat) (e : Event) :
    advance ⟨'\n' :: T, f, PState.general, line, pos⟩ e
      = advance ⟨T, f, PState.general, line + 1, 0⟩ e := by
  rw [advance_general_eq, advance_general_eq, gen_loop_lf_step]

theorem advance_run_lf (f T : List Char) (line pos : Nat) (e : Event) (n : Nat) :
    advance_run ⟨'\n' :: T, f, PState.general, line, pos⟩ e n
      = advance_run ⟨T, f, PState.general, line + 1, 0⟩ e n := by
  cases n with
  | zero => rfl
  | succ n =>
    rw [advance_run_succ, advance_run_succ, advance_lf_step]

theorem advance_section_step (f s T : List Char) (line pos : Nat) (e : Event)
    (hs : good_text s = true) :
    advance ⟨'[' :: (s ++ ']' :: '\n' :: T), f, PState.general, line, pos⟩ e
      = (⟨'\n' :: T, f, PState.general, line, pos + 1 + s.length + 1⟩,
         ⟨EventType.EVENT_SECTION, s⟩, true) := by
  obtain ⟨hne, hall⟩ := good_text_spec s hs
  obtain ⟨c, cs, hcs⟩ : ∃ c cs, s = c :: cs := by
    cases s with
    | nil => exact absurd rfl hne
    | cons c cs => exact ⟨c, cs, rfl⟩
  have hcsp : isspace c = false := by
    have := plain_char_facts c (hall c (by rw [hcs]; simp))
    exact this.2.2.2.2.1
  have hgen : gen_loop f e ('[' :: (s ++ ']' :: '\n' :: T)) line pos
      = advance_section_core f (s ++ ']' :: '\n' :: T) line (pos + 1) := by
    rw [gen_loop]
    rw [if_neg (by decide), if_neg (by decide), if_neg (by decide), if_pos (by decide)]
  have hskip : skip_ws (s ++ ']' :: '\n' :: T) (pos + 1)
      = ⟨s ++ ']' :: '\n' :: T, pos + 1, true⟩ := by
    rw [hcs, List.cons_append]
    exact skip_ws_cons_neg c _ (pos + 1) hcsp
  have hcore : advance_section_core f (s ++ ']' :: '\n' :: T) line (pos + 1)
      = ⟨'\n' :: T, line, pos + 1 + s.length + 1, PState.general,
          ⟨EventType.EVENT_SECTION, s⟩, true⟩ := by
    rw [show advance_section_core f (s ++ ']' :: '\n' :: T) line (pos + 1)
        = section_loop f ((skip_ws (s ++ ']' :: '\n' :: T) (pos + 1)).input) line
            ((skip_ws (s ++ ']' :: '\n' :: T) (pos + 1)).pos) [] from rfl]
    rw [hskip]
    rw [show (⟨s ++ ']' :: '\n' :: T, pos + 1, true⟩ : WsR).input
        = s ++ ']' :: '\n' :: T from rfl]
    rw [show (⟨s ++ ']' :: '\n' :: T, pos + 1, true⟩ : WsR).pos = pos + 1 from rfl]
    rw [section_loop_app f line s ('\n' :: T) (pos + 1) [] hall (by simp [hne])]
    rw [List.nil_append, trim_right_all_not_space s
      (fun x hx => (plain_char_facts x (hall x hx)).2.2.2.2.1)]
  rw [advance_general_eq, hgen, hcore]

theorem advance_name_step (f k v R : List Char) (line pos : Nat) (e : Event)
    (hk : good_name k = true) :
    advance ⟨k ++ '=' :: (v ++ '\n' :: R), f, PState.general, line, pos⟩ e
      = (⟨v ++ '\n' :: R, f, PState.value, line, pos + k.length + 1⟩,
         ⟨EventType.EVENT_NAME, k⟩, true) := by
  obtain ⟨c, cs, hcs, hca, hall⟩ := good_name_spec k hk
  have hsp := isalnum_not_space c hca
  have hne := isalnum_beq_ne c hca
  have hgen : gen_loop f e (k ++ '=' :: (v ++ '\n' :: R)) line pos
      = param_loop f (k ++ '=' :: (v ++ '\n' :: R)) line pos [] := by
    rw [hcs, List.cons_append, gen_loop]
    rw [if_neg (by simp [hne.2.1]), if_neg (by simp [hne.2.2.1]), if_neg (by simp [hne.1]),
      if_neg (by simp [hne.2.2.2.1]), if_neg (by simp [hsp]), if_pos hca]
    rfl
  have hpar : param_loop f (k ++ '=' :: (v ++ '\n' :: R)) line pos []
      = ⟨v ++ '\n' :: R, line, pos + k.length + 1, PState.value,
          ⟨EventType.EVENT_NAME, k⟩, true⟩ := by
    rw [param_loop_app f line k (v ++ '\n' :: R) pos [] hall]
    rw [List.nil_append, trim_right_all_not_space k
      (fun x hx => (plain_char_facts x (hall x hx)).2.2.2.2.1)]
  rw [advance_general_eq, hgen, hpar]

theorem advance_value_step (f v R : List Char) (line pos : Nat) (e : Event)
    (hv : good_text v = true) :
    advance ⟨v ++ '\n' :: R, f, PState.value, line, pos⟩ e
      = (⟨R, f, PState.general, line + 1, 0⟩, ⟨EventType.EVENT_VALUE, v⟩, true) := by
  obtain ⟨hne, hall⟩ := good_text_spec v hv
  obtain ⟨c, cs, hcs⟩ : ∃ c cs, v = c :: cs := by
    cases v with
    | nil => exact absurd rfl hne
    | cons c cs => exact ⟨c, cs, rfl⟩
  have hcsp : isspace c = false := by
    have := plain_char_facts c (hall c (by rw [hcs]; simp))
    exact this.2.2.2.2.1
  have hskip : skip_ws (v ++ '\n' :: R) pos = ⟨v ++ '\n' :: R, pos, true⟩ := by
    rw [hcs, List.cons_append]
    exact skip_ws_cons_neg c _ pos hcsp
  have hcore : advance_value_core (v ++ '\n' :: R) line pos
      = ⟨R, line + 1, 0, PState.general, ⟨EventType.EVENT_VALUE, v⟩, true⟩ := by
    rw [show advance_value_core (v ++ '\n' :: R) line pos
        = value_loop ((skip_ws (v ++ '\n' :: R) pos).input) line
            ((skip_ws (v ++ '\n' :: R) pos).pos) [] from rfl]
    rw [hskip]
    rw [show (⟨v ++ '\n' :: R, pos, true⟩ : WsR).input = v ++ '\n' :: R from rfl]
    rw [show (⟨v ++ '\n' :: R, pos, true⟩ : WsR).pos = pos from rfl]
    rw [value_loop_app line v R pos [] hall]
    rw [List.nil_append, trim_right_all_not_space v
      (fun x hx => (plain_char_facts x (hall x hx)).2.2.2.2.1)]
  rw [show advance ⟨v ++ '\n' :: R, f, PState.value, line, pos⟩ e
      = (⟨(advance_value_core (v ++ '\n' :: R) line pos).input, f,
          (advance_value_core (v ++ '\n' :: R) line pos).state,
          (advance_value_core (v ++ '\n' :: R) line pos).line,
          (advance_value_core (v ++ '\n' :: R) line pos).pos⟩,
         (advance_value_core (v ++ '\n' :: R) line pos).e,
         (advance_value_core (v ++ '\n' :: R) line pos).ret) from rfl, hcore]

theorem run_pairs (f : List Char) :
    ∀ (ps : List (List Char × List Char)), good_pairs ps = true →
    ∀ (line pos : Nat) (e : Event),
      advance_run ⟨serialize_pairs ps, f, PState.general, line, pos⟩ e
          (2 * ps.length + 1)
        = expected_tail ps := by
  intro ps
  induction ps with
  | nil =>
    intro _ line pos e
    rw [show (2 * ([] : List (List Char × List Char)).length + 1) = 1 from by simp]
    rw [advance_run_succ]
    rw [show serialize_pairs [] = [] from rfl]
    rw [advance_general_eq]
    rw [show gen_loop f e [] line pos
        = ⟨[], line, pos + 1, PState.eof, ⟨EventType.EVENT_END, []⟩, false⟩ from by
      rw [gen_loop]]
    rfl
  | cons kv rest ih =>
    obtain ⟨k, v⟩ := kv
    intro hg line pos e
    have hg3 : good_name k = true ∧ good_text v = true ∧ good_pairs rest = true := by
      simpa [good_pairs, List.all_cons, Bool.and_eq_true, and_assoc] using hg
    rw [show (2 * ((k, v) :: rest).length + 1) = (2 * rest.length + 1) + 1 + 1 from by
      simp only [List.length_cons]
      omega]
    rw [show serialize_pairs ((k, v) :: rest)
        = k ++ '=' :: (v ++ '\n' :: serialize_pairs rest) from rfl]
    rw [advance_run_succ]
    rw [advance_name_step f k v (serialize_pairs rest) line pos e hg3.1]
    rw [show ((⟨v ++ '\n' :: serialize_pairs rest, f, PState.value, line,
          pos + k.length + 1⟩, (⟨EventType.EVENT_NAME, k⟩ : Event), true) :
            Parser × Event × Bool).1
        = ⟨v ++ '\n' :: serialize_pairs rest, f, PState.value, line,
            pos + k.length + 1⟩ from rfl]
    rw [advance_run_succ]
    rw [advance_value_step f v (serialize_pairs rest) line (pos + k.length + 1)
      ⟨EventType.EVENT_NAME, k⟩ hg3.2.1]
    rw [show expected_tail ((k, v) :: rest)
        = (⟨EventType.EVENT_NAME, k⟩, true) :: (⟨EventType.EVENT_VALUE, v⟩, true)
            :: expected_tail rest from rfl]
    exact congrArg _ (congrArg _ (ih hg3.2.2 (line + 1) 0 ⟨EventType.EVENT_VALUE, v⟩))

/-- C9: counterexample — the claim admits any section name, keys and values
without comment marker, whitespace, bracket, equals or EOL characters; the
empty section name satisfies all of that, yet the stream `Section("")`
serialises to `"[]\n"`, whose first parsed event is an `Error` (empty
section name), not `Section("")`. -/
theorem C9_roundtrip_cx :
    serialize [] [] = ('[' :: (']' :: ('\n' :: []))) ∧
    ((advance_run (construct (serialize [] [])) ⟨EventType.EVENT_END, []⟩ 1).map
        fun r => (r.1.type, r.2))
      ≠ [(EventType.EVENT_SECTION, true)] ∧
    ((advance_run (construct (serialize [] [])) ⟨EventType.EVENT_END, []⟩ 1).map
        fun r => (r.1.type, r.2))
      = [(EventType.EVENT_ERROR, true)] := by
  refine ⟨rfl, ?_, ?_⟩ <;>
    simp [advance_run, advance, construct, serialize, serialize_pairs, gen_loop,
      advance_section_core, skip_ws, section_loop, unexpected_token, trim_right,
      isspace, err_msg, ostream_overwrite, show_nat]

/-- C9: amended — round-trip holds for streams
`Section(s), (Name(k), Value(v))*` whose section name, keys and values are
nonempty, contain no comment marker, no whitespace and no
bracket/equals/EOL characters, and whose keys begin with an alphanumeric
character: serialising as `[s]\nk=v\n...` and re-parsing yields exactly the
original events (each returning true) followed by `End`. -/
theorem C9_roundtrip (s : List Char) (ps : List (List Char × List Char))
    (hs : good_text s = true) (hp : good_pairs ps = true) :
    advance_run (construct (serialize s ps)) ⟨EventType.EVENT_END, []⟩
        (2 * ps.length + 2)
      = (⟨EventType.EVENT_SECTION, s⟩, true) :: expected_tail ps := by
  rw [show (2 * ps.length + 2) = (2 * ps.length + 1) + 1 from by omega]
  rw [show construct (serialize s ps)
      = ⟨'[' :: (s ++ ']' :: '\n' :: serialize_pairs ps), ("(Unknown)").data,
          PState.general, 0, 0⟩ from rfl]
  rw [advance_run_succ]
  rw [advance_section_step (("(Unknown)").data) s (serialize_pairs ps) 0 0
    ⟨EventType.EVENT_END, []⟩ hs]
  rw [show ((⟨'\n' :: serialize_pairs ps, ("(Unknown)").data, PState.general, 0,
        0 + 1 + s.length + 1⟩, (⟨EventType.EVENT_SECTION, s⟩ : Event), true) :
          Parser × Event × Bool).1
      = ⟨'\n' :: serialize_pairs ps, ("(Unknown)").data, PState.general, 0,
          0 + 1 + s.length + 1⟩ from rfl]
  rw [advance_run_lf]
  exact congrArg _ (run_pairs (("(Unknown)").data) ps hp 1 0 ⟨EventType.EVENT_SECTION, s⟩)

theorem C9_roundtrip_witness :
    good_text (("a").data) = true ∧
    good_pairs [((("k").data), ("v").data)] = true ∧
    advance_run (construct (serialize (("a").data) [((("k").data), ("v").data)]))
        ⟨EventType.EVENT_END, []⟩
        (2 * ([((("k").data), ("v").data)] : List (List Char × List Char)).length + 2)
      = (⟨EventType.EVENT_SECTION, ("a").data⟩, true)
          :: expected_tail [((("k").data), ("v").data)] :=
  ⟨by decide, by decide,
   C9_roundtrip (("a").data) [((("k").data), ("v").data)] (by decide) (by decide)⟩
